import Mathlib

/-!
# Verification of the `tcl` hashmap (`src/hashmap.h`)

A shallow embedding of the type-erased hashmap of `src/hashmap.h`.  The C
code stores fixed-size records ("pairs") `{ key; value; hash }` in one
contiguous byte buffer and manipulates them through byte offsets computed
at `hashmap_init` time.  We model the buffer as a `List Nat` of bytes
(each kept `< 256` by the write primitive), addresses and `size_t` values
as `Nat` with explicit `% 2^64` where C wraps, and the pluggable hash
function as a parameter `hf : List Nat → Nat`.

Uninitialized memory (fresh `malloc`/`realloc` bytes) is modelled as zero
bytes; no theorem below depends on the contents of dead slots.
The C target is LP64 (pointers and `size_t` are 8 bytes, `char` is
signed), the ABI of the platform the library is developed for.
-/

set_option maxRecDepth 100000

namespace Tcl

/-- Read `n` bytes of buffer `buf` starting at byte offset `off`
(the source of a `memcpy`/`memmove`, or a field load). -/
def readBytes (buf : List Nat) (off n : Nat) : List Nat :=
  (buf.drop off).take n

/-- Write the bytes `src` into buffer `buf` at byte offset `off`
(the destination side of a `memcpy`/`memmove`).  Each stored byte is
truncated to 8 bits, as byte-addressed memory would. -/
def writeBytes (buf : List Nat) (off : Nat) (src : List Nat) : List Nat :=
  buf.take off ++ src.map (fun b => b % 256) ++ buf.drop (off + src.length)

/-- The `size_t` value held by a little-endian byte sequence. -/
def leVal (bs : List Nat) : Nat :=
  bs.foldr (fun b acc => b % 256 + 256 * acc) 0

/-- The `k` little-endian bytes of the value `n` (a `size_t` store). -/
def leBytes (n : Nat) : Nat → List Nat
  | 0 => []
  | k + 1 => n % 256 :: leBytes (n / 256) k

/-- The value of a byte read through `char` (signed on the modelled ABI)
and then converted to `size_t`: bytes `≥ 128` sign-extend, so they
contribute `2^64 - 256 + b` instead of `b`. -/
def charToSizeT (b : Nat) : Nat :=
  if b % 256 < 128 then b % 256 else 2 ^ 64 - 256 + b % 256

/-- One iteration of the loop of `tclhashmap_hash_djb2`:
`hash = (hash << 5) + hash + *(char*)(buffer + i)` in `size_t`
arithmetic.  Note the byte is read through signed `char`. -/
def djb2Step (h b : Nat) : Nat :=
  ((h <<< 5) + h + charToSizeT b) % 2 ^ 64

/-- `tclhashmap_hash_djb2` (src/hashmap.h:148-156): the default hash
function, folding `djb2Step` over the key bytes from seed 5381. -/
def tclhashmap_hash_djb2 (buffer : List Nat) : Nat :=
  buffer.foldl djb2Step 5381

/-- Reference definition following the spec's words only (§6): the classic
djb2 recurrence `hash = hash*33 + byte` over *unsigned* byte values,
seeded at 5381, with `size_t` wraparound. -/
def djb2_spec_unsigned (buffer : List Nat) : Nat :=
  buffer.foldl (fun h b => (h * 33 + b % 256) % 2 ^ 64) 5381

/-- A C scalar type as the layout computation sees it: its size and
alignment in bytes. -/
structure CType where
  size : Nat
  align : Nat
deriving Repr, DecidableEq

/-- Round `off` up to the next multiple of the alignment `a`. -/
def alignUp (off a : Nat) : Nat := (off + a - 1) / a * a

/-- `offsetof(pair_t(K,V), value)`: the key sits at offset 0, the value
is placed at the next offset aligned for `V`. -/
def pairValueOff (K V : CType) : Nat := alignUp K.size V.align

/-- `offsetof(pair_t(K,V), hash)`: the `size_t` hash follows the value,
aligned to 8 bytes. -/
def pairHashOff (K V : CType) : Nat := alignUp (pairValueOff K V + V.size) 8

/-- `sizeof(pair_t(K,V))`: the struct size, padded to the struct's
alignment (the max alignment of its fields). -/
def pairSize (K V : CType) : Nat :=
  alignUp (pairHashOff K V + 8) (max (max K.align V.align) 8)

/-- The hashmap state: the record buffer plus the header fields of the
`hashmap_t` struct (src/hashmap.h:69-79).  `pairs` holds
`pair_size * capacity` bytes. -/
structure Hashmap where
  pairs : List Nat
  length : Nat
  capacity : Nat
  pair_size : Nat
  key_size : Nat
  value_size : Nat
  key_offset : Nat
  value_offset : Nat
  hash_offset : Nat
deriving Repr, DecidableEq

/-- `hashmap_init` (src/hashmap.h:118-128): a fresh map with capacity 5,
length 0, and layout metadata computed from the key and value types.
The freshly malloc'd buffer is uninitialized; modelled as zeros. -/
def hashmap_init (K V : CType) : Hashmap where
  pairs := List.replicate (pairSize K V * 5) 0
  length := 0
  capacity := 5
  pair_size := pairSize K V
  key_size := K.size
  value_size := V.size
  key_offset := 0
  value_offset := pairValueOff K V
  hash_offset := pairHashOff K V

/-- `TCLHASHMAP_GET_PAIR`: byte address of the `i`-th record. -/
def pairAddr (m : Hashmap) (i : Nat) : Nat := m.pair_size * i

/-- The stored hash of record `i`: the `size_t` read at
`TCLHASHMAP_GET_HASH` of the `i`-th pair. -/
def storedHash (m : Hashmap) (i : Nat) : Nat :=
  leVal (readBytes m.pairs (pairAddr m i + m.hash_offset) 8)

/-- The linear hash-match scan shared by `set`/`get`/`erase`/`exists`:
the first index `i < length` whose stored hash equals `h`. -/
def findIdx (m : Hashmap) (h : Nat) : Option Nat :=
  (List.range m.length).find? (fun i => storedHash m i == h)

/-- `offsetof(struct _pair_t, value)` for the type-erased
`struct _pair_t { uint8_t* key; uint8_t* value; size_t hash; }` used
inside the operations: on LP64 this is 8 (one pointer).  The update
branch of `tclhashmap_set` writes through `&current_pair->value`
(src/hashmap.h:232), i.e. at THIS offset, not at `value_offset`. -/
def updateValueOff : Nat := 8

/-- `realloc` to `n` bytes: the common prefix is preserved, fresh bytes
are uninitialized (modelled as zeros). -/
def growBuf (buf : List Nat) (n : Nat) : List Nat :=
  buf.take n ++ List.replicate (n - buf.length) 0

/-- `tclhashmap_set` (src/hashmap.h:224-252).  Hash the key bytes; scan
for a stored-hash match.  On a match, `memcpy` the value bytes to
`&current_pair->value` — byte offset `updateValueOff` = 8 of the record,
exactly as the source does (NOT `value_offset`).  Otherwise grow the
buffer if full (`capacity += capacity / 2`) and append key, value and
hash at index `length`. -/
def tclhashmap_set (hf : List Nat → Nat) (m : Hashmap) (key value : List Nat) :
    Hashmap :=
  let h := hf (key.take m.key_size)
  match findIdx m h with
  | some i =>
    { m with pairs := writeBytes m.pairs (pairAddr m i + updateValueOff)
               (value.take m.value_size) }
  | none =>
    let m1 := if m.capacity ≤ m.length then
        { m with capacity := m.capacity + m.capacity / 2,
                 pairs := growBuf m.pairs
                   (m.pair_size * (m.capacity + m.capacity / 2)) }
      else m
    let base := pairAddr m1 m1.length
    { m1 with
      pairs := writeBytes (writeBytes (writeBytes m1.pairs
                 (base + m1.key_offset) (key.take m1.key_size))
                 (base + m1.value_offset) (value.take m1.value_size))
                 (base + m1.hash_offset) (leBytes h 8),
      length := m1.length + 1 }

/-- `tclhashmap_erase` (src/hashmap.h:254-268).  On a stored-hash match
at index `i`, `memmove` exactly `pair_size * length - i` bytes (the
source's expression, with its C operator precedence) from pair `i+1`
down to pair `i`, then decrement `length`.  No-op when no hash
matches. -/
def tclhashmap_erase (hf : List Nat → Nat) (m : Hashmap) (key : List Nat) :
    Hashmap :=
  match findIdx m (hf (key.take m.key_size)) with
  | some i =>
    { m with
      pairs := writeBytes m.pairs (pairAddr m i)
        (readBytes m.pairs (pairAddr m (i + 1)) (m.pair_size * m.length - i)),
      length := m.length - 1 }
  | none => m

/-- `tclhashmap_get` (src/hashmap.h:270-284): on a stored-hash match,
return the value bytes the returned pointer refers to (the
`value_size` bytes at `value_offset` of the matched record); otherwise
NULL, i.e. `none`. -/
def tclhashmap_get (hf : List Nat → Nat) (m : Hashmap) (key : List Nat) :
    Option (List Nat) :=
  match findIdx m (hf (key.take m.key_size)) with
  | some i =>
    some (readBytes m.pairs (pairAddr m i + m.value_offset) m.value_size)
  | none => none

/-- `tclhashmap_exists` (src/hashmap.h:286-299): whether some live
record's stored hash matches the key's hash. -/
def tclhashmap_exists (hf : List Nat → Nat) (m : Hashmap) (key : List Nat) :
    Bool :=
  (findIdx m (hf (key.take m.key_size))).isSome

/-- `tclhashmap_iterate` (src/hashmap.h:301-310): fold the callback over
the live records in storage order, passing each record's key bytes and
value bytes; the accumulator plays the role of `user_data`. -/
def tclhashmap_iterate {α : Type} (m : Hashmap) (f : List Nat → List Nat → α → α)
    (a : α) : α :=
  (List.range m.length).foldl
    (fun acc i =>
      f (readBytes m.pairs (pairAddr m i + m.key_offset) m.key_size)
        (readBytes m.pairs (pairAddr m i + m.value_offset) m.value_size) acc) a

/-- The `unsigned int` / `float` layout of `src/test.c` (4 bytes,
4-aligned). -/
def u32 : CType := ⟨4, 4⟩

/-- A 2-byte, 2-aligned scalar (`uint16_t`). -/
def u16 : CType := ⟨2, 2⟩

/-- Insert a list of key/value pairs in order with the default hash. -/
def setAll (m : Hashmap) (kvs : List (List Nat × List Nat)) : Hashmap :=
  kvs.foldl (fun acc kv => tclhashmap_set tclhashmap_hash_djb2 acc kv.1 kv.2) m

/-- A fresh `unsigned int → float`-shaped map, as in `src/test.c`:
key at offset 0, value at offset 4, hash at offset 8, 16-byte pairs. -/
def mEmpty : Hashmap := hashmap_init u32 u32

/-- The bytes of `unsigned int` key `1`. -/
def kOne : List Nat := [1, 0, 0, 0]

/-- The bytes of the float `1.0f`. -/
def vOneF : List Nat := [0, 0, 128, 63]

/-- The bytes of the float `2.0f`. -/
def vTwoF : List Nat := [0, 0, 0, 64]

/-- The store after `set(m, 1, 1.0f)` on a fresh map. -/
def mIns1 : Hashmap := tclhashmap_set tclhashmap_hash_djb2 mEmpty kOne vOneF

/-- The store after `set(m, 1, 1.0f); set(m, 1, 2.0f)`: the second set
takes the update branch. -/
def mIns2 : Hashmap := tclhashmap_set tclhashmap_hash_djb2 mIns1 kOne vTwoF

/-- Five inserts with pairwise distinct hashes: fills the initial
capacity exactly (`length = capacity = 5`). -/
def mFive : Hashmap := setAll mEmpty
  [([0,0,0,0], [10,0,0,0]), ([1,0,0,0], [11,0,0,0]), ([2,0,0,0], [12,0,0,0]),
   ([3,0,0,0], [13,0,0,0]), ([4,0,0,0], [14,0,0,0])]

/-- Three inserts with pairwise distinct hashes into a fresh map. -/
def mThree : Hashmap := setAll mEmpty
  [([1,0,0,0], [10,0,0,0]), ([2,0,0,0], [20,0,0,0]), ([3,0,0,0], [30,0,0,0])]

/-- Two records with distinct hashes (keys `0` and `1`). -/
def mTwo : Hashmap := setAll mEmpty
  [([0,0,0,0], [1,1,1,1]), ([1,0,0,0], [2,2,2,2])]

/-- A value whose four bytes equal the low 32 bits of the hash of key
`[0,0,0,0]`.  Updating the second record of `mTwo` with this value makes
the buggy update branch rewrite that record's stored-hash low bytes to
exactly the first record's hash (both hashes of 4-byte keys share high
word 1). -/
def vClobber : List Nat := leBytes (tclhashmap_hash_djb2 [0, 0, 0, 0] % 2 ^ 32) 4

/-- `mTwo` after `set(m, key 1, vClobber)`: the update branch corrupts
the stored hash of record 1 into the hash of record 0. -/
def mClobbered : Hashmap := tclhashmap_set tclhashmap_hash_djb2 mTwo [1, 0, 0, 0] vClobber

/-- A one-record map over 2-byte keys, keyed by `[1, 33]`; the key
`[2, 0]` is a distinct key with the same djb2 hash (djb2 collision:
`33*1 + 33 = 33*2 + 0`). -/
def mColl : Hashmap :=
  tclhashmap_set tclhashmap_hash_djb2 (hashmap_init u16 u16) [1, 33] [7, 7]

section Theorems

/-- One djb2 step with a byte below 128 agrees with the unsigned
recurrence `hash*33 + byte`. -/
theorem djb2Step_unsigned (a b : Nat) (hb : b % 256 < 128) :
    djb2Step a b = (a * 33 + b % 256) % 2 ^ 64 := by
  unfold djb2Step charToSizeT
  rw [if_pos hb, Nat.shiftLeft_eq]
  have : a * 2 ^ 5 + a = a * 33 := by omega
  rw [this]

/-- Folding the signed-char djb2 step agrees with the unsigned
recurrence from any seed, as long as every byte is below 128. -/
theorem djb2_foldl_congr (l : List Nat) (a : Nat) (h : ∀ b ∈ l, b % 256 < 128) :
    l.foldl djb2Step a = l.foldl (fun x b => (x * 33 + b % 256) % 2 ^ 64) a := by
  induction l generalizing a with
  | nil => rfl
  | cons x xs ih =>
    simp only [List.foldl_cons]
    rw [djb2Step_unsigned a x (h x (List.mem_cons_self x xs))]
    exact ih _ (fun b hb => h b (List.mem_cons_of_mem x hb))

/-- Folding "append one element" over a list from an accumulator is the
accumulator followed by the mapped list. -/
theorem foldl_append_map {α β : Type} (l : List α) (g : α → β) (acc : List β) :
    l.foldl (fun a i => a ++ [g i]) acc = acc ++ l.map g := by
  induction l generalizing acc with
  | nil => simp
  | cons x xs ih => simp [ih]

end Theorems

/-- C1: the claim "after `set(m,k,v)`, `get(m,k)` returns `v` — also when
a record with matching hash already existed" fails on the code.  The
update branch of `tclhashmap_set` writes the value at byte offset 8 of
the record (`&current_pair->value` of the type-erased struct) instead of
at `value_offset`.  On the `unsigned int → float` layout of `src/test.c`
(value at offset 4, hash at offset 8) the second `set` overwrites the
stored hash, so `get` no longer even finds the key: after
`set(m,1,1.0f); set(m,1,2.0f)`, `get(m,1)` is NULL, not `2.0f`.  The
fresh-insert half of the claim does hold on this input (first conjunct). -/
theorem c1_insert_then_get_fails_on_update :
    tclhashmap_get tclhashmap_hash_djb2 mIns1 kOne = some vOneF ∧
    tclhashmap_get tclhashmap_hash_djb2 mIns2 kOne = none := by decide

/-- C2: the claim "after `set(m,k,v1); set(m,k,v2)`, `get(m,k) = v2`,
with key and stored hash untouched" fails on the code.  `length` is
indeed unchanged across the second `set` (first conjunct), but the
update writes the value bytes at offset 8 — the stored hash (at
`hash_offset = 8`) changes from the key's hash 6381476838 to
5368709120, and `get(m,k)` then returns NULL instead of `2.0f`. -/
theorem c2_update_in_place_clobbers_hash :
    mIns2.length = mIns1.length ∧
    storedHash mIns1 0 = 6381476838 ∧
    storedHash mIns2 0 = 5368709120 ∧
    tclhashmap_get tclhashmap_hash_djb2 mIns2 kOne ≠ some vTwoF := by decide

/-- C3: the claim "erase shifts records `i+1..length-1` down one slot and
nothing else; erasing the last record does not underflow the copy
length" fails on the code.  The `memmove` byte count is
`pair_size * length - i` (C precedence: `(pair_size*length) - i`), not
`pair_size * (length - 1 - i)`.  On the reachable store `mFive`
(`length = capacity = 5`, 16-byte pairs, 80-byte allocation), erasing
the key matching record 4 — the last one — moves 76 bytes whose source
interval starts at byte 80, the very end of the 80-byte allocation: an
out-of-bounds read, and a write reaching 60 bytes past the buffer,
instead of the 0 bytes the claim requires. -/
theorem c3_erase_memmove_out_of_bounds :
    mFive.length = 5 ∧ mFive.capacity = 5 ∧ mFive.pairs.length = 80 ∧
    findIdx mFive (tclhashmap_hash_djb2 [4, 0, 0, 0]) = some 4 ∧
    (tclhashmap_erase tclhashmap_hash_djb2 mFive [4, 0, 0, 0]).length = 4 ∧
    pairAddr mFive (4 + 1) = 80 ∧
    mFive.pair_size * mFive.length - 4 = 76 ∧
    mFive.pair_size * (mFive.length - 1 - 4) = 0 ∧
    mFive.pair_size * mFive.capacity <
      pairAddr mFive (4 + 1) + (mFive.pair_size * mFive.length - 4) := by decide

/-- C4: erasing a key whose hash matches no live record's stored hash is
a no-op: the whole store — length, capacity, layout metadata and every
buffer byte — is returned unchanged. -/
theorem c4_erase_absent_noop (hf : List Nat → Nat) (m : Hashmap) (k : List Nat)
    (h : ∀ i < m.length, storedHash m i ≠ hf (k.take m.key_size)) :
    tclhashmap_erase hf m k = m := by
  have hnone : findIdx m (hf (k.take m.key_size)) = none := by
    refine List.find?_eq_none.mpr (fun i hi => ?_)
    simp only [List.mem_range] at hi
    simp [h i hi]
  simp [tclhashmap_erase, hnone]

/-- Witness for C4: erasing the never-inserted key `2` from the
one-record store `mIns1` leaves it byte-for-byte unchanged. -/
theorem c4_erase_absent_noop_witness :
    (∀ i < mIns1.length,
      storedHash mIns1 i ≠ tclhashmap_hash_djb2 ([2, 0, 0, 0].take mIns1.key_size)) ∧
    tclhashmap_erase tclhashmap_hash_djb2 mIns1 [2, 0, 0, 0] = mIns1 :=
  ⟨by decide, c4_erase_absent_noop tclhashmap_hash_djb2 mIns1 [2, 0, 0, 0] (by decide)⟩

/-- Counterexample to C5: growth is `capacity += capacity / 2` with no
`+1`.  Appending a sixth distinct-hash key to the full reachable store
`mFive` (capacity 5) yields capacity 7, while the claimed
`old + old/2 + 1` policy predicts 8. -/
theorem c5_growth_counterexample :
    mFive.length = 5 ∧ mFive.capacity = 5 ∧
    (tclhashmap_set tclhashmap_hash_djb2 mFive [5, 0, 0, 0] [15, 0, 0, 0]).capacity = 7 ∧
    mFive.capacity + mFive.capacity / 2 + 1 = 8 := by decide

/-- C5 (amended): a fresh store has capacity 5 and length 0; when `set`
appends with no spare capacity the new capacity is
`old + old / 2` (1.5×, no `+1`); a non-growing append and an `erase`
leave capacity unchanged, and no `set` ever decreases it. -/
theorem c5_capacity_policy :
    (∀ K V : CType, (hashmap_init K V).capacity = 5 ∧ (hashmap_init K V).length = 0) ∧
    (∀ hf m (k v : List Nat), findIdx m (hf (k.take m.key_size)) = none →
      m.capacity ≤ m.length →
      (tclhashmap_set hf m k v).capacity = m.capacity + m.capacity / 2) ∧
    (∀ hf m (k v : List Nat), findIdx m (hf (k.take m.key_size)) = none →
      m.length < m.capacity →
      (tclhashmap_set hf m k v).capacity = m.capacity) ∧
    (∀ hf m (k v : List Nat), m.capacity ≤ (tclhashmap_set hf m k v).capacity) ∧
    (∀ hf m (k : List Nat), (tclhashmap_erase hf m k).capacity = m.capacity) := by
  refine ⟨fun K V => ⟨rfl, rfl⟩, ?_, ?_, ?_, ?_⟩
  · intro hf m k v hnone hfull
    simp [tclhashmap_set, hnone, hfull]
  · intro hf m k v hnone hlt
    simp [tclhashmap_set, hnone, Nat.not_le.mpr hlt]
  · intro hf m k v
    cases hfi : findIdx m (hf (k.take m.key_size)) with
    | some i => simp [tclhashmap_set, hfi]
    | none =>
      by_cases hc : m.capacity ≤ m.length
      · simp [tclhashmap_set, hfi, hc]
      · simp [tclhashmap_set, hfi, hc]
  · intro hf m k
    cases hfi : findIdx m (hf (k.take m.key_size)) with
    | some i => simp [tclhashmap_erase, hfi]
    | none => simp [tclhashmap_erase, hfi]

/-- Witness for C5 (amended): appending the sixth distinct-hash key to
the full store `mFive` grows capacity from 5 to `5 + 5 / 2 = 7`. -/
theorem c5_capacity_policy_witness :
    (tclhashmap_set tclhashmap_hash_djb2 mFive [5, 0, 0, 0] [15, 0, 0, 0]).capacity =
      mFive.capacity + mFive.capacity / 2 :=
  c5_capacity_policy.2.1 tclhashmap_hash_djb2 mFive [5, 0, 0, 0] [15, 0, 0, 0]
    (by decide) (by decide)

/-- Counterexample to C6: the loop reads each byte through `char`
(signed on the modelled LP64 ABI), so the byte 128 contributes
`2^64 - 128` instead of `128`: the code hashes `[128]` to
`5381*33 - 128 = 177445`, while the claimed unsigned recurrence gives
`5381*33 + 128 = 177701`. -/
theorem c6_djb2_signed_char_counterexample :
    tclhashmap_hash_djb2 [128] = 177445 ∧
    djb2_spec_unsigned [128] = 177701 ∧
    tclhashmap_hash_djb2 [128] ≠ djb2_spec_unsigned [128] := by decide

/-- C6 (amended): the default hash follows the djb2 recurrence with the
byte read as a signed `char` converted to `size_t`; it coincides with
the classic recurrence over unsigned byte values exactly on inputs all
of whose bytes are below 128. -/
theorem c6_djb2_spec_agrees_below_128 (buffer : List Nat)
    (h : ∀ b ∈ buffer, b % 256 < 128) :
    tclhashmap_hash_djb2 buffer = djb2_spec_unsigned buffer :=
  djb2_foldl_congr buffer 5381 h

/-- Witness for C6 (amended): on the ASCII bytes of `"hello"` the code's
hash equals the classic unsigned djb2 value. -/
theorem c6_djb2_spec_agrees_below_128_witness :
    (∀ b ∈ [104, 101, 108, 108, 111], b % 256 < 128) ∧
    tclhashmap_hash_djb2 [104, 101, 108, 108, 111] =
      djb2_spec_unsigned [104, 101, 108, 108, 111] :=
  ⟨by decide, c6_djb2_spec_agrees_below_128 [104, 101, 108, 108, 111] (by decide)⟩

/-- C7: hash equality is the sole identity test.  Two keys with equal
hash are treated identically by `get`, `exists` and `erase`, and by
`set` whenever a matching-hash record exists (the update branch never
looks at the key bytes); no operation compares raw key bytes after
hashing. -/
theorem c7_hash_equality_sole_identity (hf : List Nat → Nat) (m : Hashmap)
    (k1 k2 v : List Nat)
    (h : hf (k1.take m.key_size) = hf (k2.take m.key_size)) :
    tclhashmap_get hf m k1 = tclhashmap_get hf m k2 ∧
    tclhashmap_exists hf m k1 = tclhashmap_exists hf m k2 ∧
    tclhashmap_erase hf m k1 = tclhashmap_erase hf m k2 ∧
    (tclhashmap_exists hf m k1 = true →
      tclhashmap_set hf m k1 v = tclhashmap_set hf m k2 v) := by
  refine ⟨?_, ?_, ?_, ?_⟩
  · simp only [tclhashmap_get, h]
  · simp only [tclhashmap_exists, h]
  · simp only [tclhashmap_erase, h]
  · intro hex
    simp only [tclhashmap_exists, h] at hex
    obtain ⟨i, hi⟩ := Option.isSome_iff_exists.mp hex
    simp only [tclhashmap_set, h, hi]

/-- Witness for C7: `[1,33]` and `[2,0]` are distinct 2-byte keys with
the same djb2 hash; on the one-record store `mColl` keyed by `[1,33]`,
`get` agrees on both and `set` updates the `[1,33]` record identically
through either key. -/
theorem c7_hash_equality_sole_identity_witness :
    tclhashmap_hash_djb2 ([1, 33].take mColl.key_size) =
      tclhashmap_hash_djb2 ([2, 0].take mColl.key_size) ∧
    tclhashmap_get tclhashmap_hash_djb2 mColl [1, 33] =
      tclhashmap_get tclhashmap_hash_djb2 mColl [2, 0] ∧
    tclhashmap_set tclhashmap_hash_djb2 mColl [1, 33] [9, 9] =
      tclhashmap_set tclhashmap_hash_djb2 mColl [2, 0] [9, 9] := by
  have hh : tclhashmap_hash_djb2 ([1, 33].take mColl.key_size) =
      tclhashmap_hash_djb2 ([2, 0].take mColl.key_size) := by decide
  have hc := c7_hash_equality_sole_identity tclhashmap_hash_djb2 mColl
    [1, 33] [2, 0] [9, 9] hh
  exact ⟨hh, hc.1, hc.2.2.2 (by decide)⟩

/-- C8: the claim "no two live records ever share a stored hash" fails
on the code.  `mTwo` holds records for keys `0` and `1` with distinct
hashes; updating key `1` with the value `vClobber` (four bytes equal to
the low word of key `0`'s hash) makes the buggy update branch overwrite
record 1's stored-hash low bytes, leaving two live records with the
identical stored hash — on a store reachable by three `set` calls. -/
theorem c8_distinct_hash_invariant_broken :
    (mTwo.length = 2 ∧ storedHash mTwo 0 ≠ storedHash mTwo 1) ∧
    mClobbered.length = 2 ∧
    storedHash mClobbered 0 = storedHash mClobbered 1 := by decide

/-- C9: iterating visits exactly the live records in storage order,
passing each record's key bytes and value bytes (first conjunct: a
collecting visitor reproduces the records `0..length-1` in order); on
the store built by inserting keys `1`, `2`, `3` with distinct hashes it
yields exactly those three pairs in insertion order. -/
theorem c9_iterate_in_storage_order :
    (∀ m : Hashmap,
      tclhashmap_iterate m (fun k v acc => acc ++ [(k, v)]) [] =
        (List.range m.length).map (fun i =>
          (readBytes m.pairs (pairAddr m i + m.key_offset) m.key_size,
           readBytes m.pairs (pairAddr m i + m.value_offset) m.value_size))) ∧
    tclhashmap_iterate mThree (fun k v acc => acc ++ [(k, v)]) [] =
      [([1,0,0,0], [10,0,0,0]), ([2,0,0,0], [20,0,0,0]), ([3,0,0,0], [30,0,0,0])] := by
  constructor
  · intro m
    unfold tclhashmap_iterate
    exact (foldl_append_map (List.range m.length) _ []).trans (List.nil_append _)
  · decide

/-- C10: the query operations are pure.  In this embedding `get`,
`exists` and `iterate` are functions of the store that return no store
at all, mirroring that their C bodies (src/hashmap.h:270-310) never
write through the hashmap pointer — length, capacity, layout metadata
and buffer are untouched by construction.  The checkable residue of the
claim is the agreement of the two lookups: `exists` answers true exactly
when `get` returns a non-NULL result. -/
theorem c10_exists_iff_get_some (hf : List Nat → Nat) (m : Hashmap)
    (k : List Nat) :
    tclhashmap_exists hf m k = (tclhashmap_get hf m k).isSome := by
  simp only [tclhashmap_exists, tclhashmap_get]
  cases hfi : findIdx m (hf (k.take m.key_size)) with
  | some i => rfl
  | none => rfl

end Tcl
